import Mathlib

/-!
Verification of the RAG pipeline in `app/rag_service.py`.

The service's methods are shallowly embedded as Lean functions:
Python strings become `List Char`, Python `int` becomes `Int` (with
Python slice semantics made explicit), Python `float` arithmetic is
idealized as exact real arithmetic over `ℝ`, provider calls become
function parameters returning `Except`, and the `while` loop of
`chunk_text` becomes a fuelled loop whose `none` result for every fuel
bound witnesses divergence.  CPython's `list.sort(key=..., reverse=True)`
is a stable sort placing larger keys first; it is embedded as
`List.mergeSort` with the reflexive-total comparison "first key not
below second key", which is exactly the stable descending sort.
-/

namespace RAGService

/-- Python slice index resolution for a length-`n` sequence: negative
indices count from the end and clamp at `0`; non-negative indices clamp
at `n`. -/
def sliceIdx (n : Nat) (i : Int) : Nat :=
  if i < 0 then ((n : Int) + i).toNat else min i.toNat n

/-- Python slice `l[a:b]`. -/
def pySlice (l : List α) (a b : Int) : List α :=
  (l.take (sliceIdx l.length b)).drop (sliceIdx l.length a)

/-- The `while start < text_len` loop of `RAGService.chunk_text`
(`app/rag_service.py` lines 71-75), embedded with an explicit iteration
bound `fuel`: each iteration appends the slice
`text[start : start + chunk_size]` and advances `start` by
`chunk_size - overlap`; `none` means the loop was still running after
`fuel` iterations. -/
def chunkLoop (text : List Char) (chunk_size overlap : Int) :
    Nat → Int → Option (List (List Char))
  | 0, start => if start < (text.length : Int) then none else some []
  | fuel + 1, start =>
      if start < (text.length : Int) then
        (chunkLoop text chunk_size overlap fuel (start + (chunk_size - overlap))).map
          (fun rest => pySlice text start (start + chunk_size) :: rest)
      else
        some []

/-- `RAGService.chunk_text` (`app/rag_service.py` lines 52-77).  Empty
text short-circuits to `[]`.  The loop is run with iteration bound
`text.length`, which is exact: when the stride `chunk_size - overlap`
is at least 1 the loop performs at most `text.length` iterations, and
when the stride is not positive `start` never increases, so the loop
never exits and `chunkLoop` returns `none` for every bound. -/
def chunk_text (text : List Char) (chunk_size overlap : Int) :
    Option (List (List Char)) :=
  if text.isEmpty then some [] else chunkLoop text chunk_size overlap text.length 0

/-- Start offsets of the windows produced by a sliding window of stride
`s` over a text of length `len`: `0, s, 2*s, ...` while the offset is
below `len`, that is `(len + s - 1) / s` many windows. -/
def strideStarts (len s : Nat) : List Nat :=
  (List.range ((len + s - 1) / s)).map (fun k => k * s)

/-- The `Chunk` dataclass (`app/rag_service.py` lines 22-29).  Values of
the `metadata` mapping are abstracted to strings; none of the verified
operations inspects them. -/
structure Chunk where
  chunk_id : String
  document_id : String
  text : List Char
  embedding : Option (List ℝ)
  metadata : Option (List (String × String))

/-- One entry of the `sources` list built by `generate_answer`
(`app/rag_service.py` lines 183-188). -/
structure SourceEntry where
  chunk_id : String
  document_id : String
  text_preview : List Char
  metadata : List (String × String)

/-- The `RAGResponse` dataclass (`app/rag_service.py` lines 32-37). -/
structure RAGResponse where
  answer : List Char
  sources : List SourceEntry
  confidence : ℝ

/-- Modelled from the spec: the pipeline stage names of §4.5
(`INIT → EMBED_QUERY → RETRIEVE → SYNTHESIZE → DONE`).  The source code
under `src/` defines no such stage identifiers. -/
inductive Stage where
  | EMBED_QUERY
  | RETRIEVE
  | SYNTHESIZE
  deriving DecidableEq

/-- A provider exception.  The `msg` field is the Python exception
message.  The `stage` field is modelled from the spec: §4.5 and §7
require the failing stage to be attached for diagnosis; a provider
raises its error with `stage = none`, and any stage tag would have to
be attached by code of `rag_service.py`, which re-raises exceptions
unchanged. -/
structure ProviderError where
  msg : String
  stage : Option Stage
  deriving DecidableEq

/-- The embedding provider boundary: `self.client.embeddings.create`
(`app/rag_service.py` lines 90-94), abstracted as a function from the
input text to either an embedding vector or a raised error. -/
abbrev Embedder := List Char → Except ProviderError (List ℝ)

/-- One chat message, as in `app/rag_service.py` lines 201-204. -/
structure Message where
  role : String
  content : List Char

/-- The generation provider boundary: `self.client.chat.completions.create`
(`app/rag_service.py` lines 207-214), abstracted as a function from the
message list to either the answer text or a raised error. -/
abbrev GenProvider := List Message → Except ProviderError (List Char)

/-- Python truthiness of the `Optional[List[float]]` field `embedding`,
as tested by `if chunk.embedding:` (`app/rag_service.py` line 152):
`None` and the empty list are falsy. -/
def pyTruthyEmbedding : Option (List ℝ) → Bool
  | none => false
  | some e => !e.isEmpty

/-- `sum(a * b for a, b in zip(vec1, vec2))` (`app/rag_service.py`
line 123): `zip` stops at the shorter vector. -/
def dot_product (vec1 vec2 : List ℝ) : ℝ :=
  ((vec1.zip vec2).map (fun p => p.1 * p.2)).sum

/-- `sum(a * a for a in vec)` as used on lines 124-125. -/
def sumSquares (v : List ℝ) : ℝ :=
  (v.map (fun a => a * a)).sum

/-- `math.sqrt(sum(a * a for a in vec))` (`app/rag_service.py`
lines 124-125). -/
noncomputable def magnitude (v : List ℝ) : ℝ :=
  Real.sqrt (sumSquares v)

/-- `RAGService.cosine_similarity` (`app/rag_service.py` lines 119-130):
dot product over the zip of the two vectors, each magnitude over the
whole vector, `0.0` when either magnitude is zero. -/
noncomputable def cosine_similarity (vec1 vec2 : List ℝ) : ℝ :=
  if magnitude vec1 = 0 ∨ magnitude vec2 = 0 then 0
  else dot_product vec1 vec2 / (magnitude vec1 * magnitude vec2)

/-- The scoring loop of `retrieve_relevant_chunks` (`app/rag_service.py`
lines 150-154): chunks whose `embedding` is falsy (absent or the empty
list) are skipped; each kept chunk is paired with its similarity to the
query embedding. -/
noncomputable def scoredOf (query_embedding : List ℝ) (chunks : List Chunk) :
    List (ℝ × Chunk) :=
  chunks.filterMap (fun chunk =>
    match chunk.embedding with
    | some e => if e.isEmpty then none else some (cosine_similarity query_embedding e, chunk)
    | none => none)

/-- Python slice `l[:k]` for an `int` bound `k` (negative bounds count
from the end), as in `scored_chunks[:top_k]` on line 158. -/
def pyTake (k : Int) (l : List α) : List α :=
  if 0 ≤ k then l.take k.toNat else l.take (l.length - (-k).toNat)

/-- The comparison realising `sort(key=lambda x: x[0], reverse=True)`
(`app/rag_service.py` line 157): `a` may stay before `b` exactly when
`a`'s score is not below `b`'s; a stable sort with this reflexive total
comparison is precisely CPython's stable descending sort by key. -/
noncomputable def sortKeyDesc (a b : ℝ × Chunk) : Bool :=
  decide (b.1 ≤ a.1)

/-- `RAGService.retrieve_relevant_chunks` (`app/rag_service.py`
lines 132-158): score the truthy-embedding chunks, stable-sort by
descending similarity, return the chunks of the first `top_k` pairs. -/
noncomputable def retrieve_relevant_chunks (query_embedding : List ℝ)
    (chunks : List Chunk) (top_k : Int) : List Chunk :=
  (pyTake top_k ((scoredOf query_embedding chunks).mergeSort sortKeyDesc)).map
    (fun p => p.2)

/-- `chunk.text[:200] + "..." if len(chunk.text) > 200 else chunk.text`
(`app/rag_service.py` line 186). -/
def text_preview_of (t : List Char) : List Char :=
  if 200 < t.length then t.take 200 ++ "...".toList else t

/-- `chunk.metadata or {}` (`app/rag_service.py` line 187): Python `or`
returns `{}` when `metadata` is `None` or an empty (falsy) mapping. -/
def pyMetaOr : Option (List (String × String)) → List (String × String)
  | none => []
  | some d => if d.isEmpty then [] else d

/-- One element appended to `sources` per context chunk
(`app/rag_service.py` lines 183-188). -/
def mkSource (chunk : Chunk) : SourceEntry :=
  ⟨chunk.chunk_id, chunk.document_id, text_preview_of chunk.text, pyMetaOr chunk.metadata⟩

/-- The 1-based source label prefix of a context part:
`"[Source N]: "` for the chunk at 0-based index `i`
(`app/rag_service.py` line 182). -/
def source_label (i : Nat) : List Char :=
  ("[Source " ++ toString (i + 1) ++ "]: ").toList

/-- `"\n\n".join(context_parts)` with
`context_parts[i] = "[Source i+1]: " + chunk.text`
(`app/rag_service.py` lines 178-190). -/
def buildContext (context_chunks : List Chunk) : List Char :=
  List.intercalate "\n\n".toList
    (context_chunks.enum.map (fun ic => source_label ic.1 ++ ic.2.text))

/-- The default system prompt (`app/rag_service.py` lines 193-198). -/
def default_system_prompt : List Char :=
  ("You are a helpful AI assistant that answers questions based on the provided context. "
    ++ "Use the context to answer the question accurately. If the answer cannot be found in "
    ++ "the context, say so. Cite the source numbers when referencing information.").toList

/-- `if not system_prompt:` (`app/rag_service.py` line 193): Python
truthiness, so both `None` and an empty string select the default. -/
def resolve_system_prompt : Option (List Char) → List Char
  | none => default_system_prompt
  | some p => if p.isEmpty then default_system_prompt else p

/-- The `messages` list sent to the generation provider
(`app/rag_service.py` lines 201-204). -/
def buildMessages (question : List Char) (context_chunks : List Chunk)
    (system_prompt : Option (List Char)) : List Message :=
  [⟨"system", resolve_system_prompt system_prompt⟩,
   ⟨"user", "Context:\n".toList ++ buildContext context_chunks
      ++ "\n\nQuestion: ".toList ++ question⟩]

/-- `RAGService.generate_answer` (`app/rag_service.py` lines 160-226):
build sources and messages, call the generation provider, and either
return the response (confidence `min(1.0, len(answer) / 500)`) or
re-raise the provider error unchanged. -/
noncomputable def generate_answer (gen : GenProvider) (question : List Char)
    (context_chunks : List Chunk) (system_prompt : Option (List Char)) :
    Except ProviderError RAGResponse :=
  match gen (buildMessages question context_chunks system_prompt) with
  | .ok answer =>
      .ok ⟨answer, context_chunks.map mkSource, min 1 ((answer.length : ℝ) / 500)⟩
  | .error e => .error e

/-- `RAGService.generate_embedding` (`app/rag_service.py` lines 79-97):
a single provider call; on failure the exception is logged and
re-raised unchanged (`raise` with no argument). -/
def generate_embedding (provider : Embedder) (text : List Char) :
    Except ProviderError (List ℝ) :=
  match provider text with
  | .ok v => .ok v
  | .error e => .error e

/-- `RAGService.process_query` (`app/rag_service.py` lines 228-256):
embed the question, retrieve, synthesize; any raised error propagates
out unchanged, skipping the remaining stages. -/
noncomputable def process_query (embedder : Embedder) (gen : GenProvider)
    (question : List Char) (document_chunks : List Chunk) (top_k : Int) :
    Except ProviderError RAGResponse :=
  match generate_embedding embedder question with
  | .error e => .error e
  | .ok query_embedding =>
      generate_answer gen question
        (retrieve_relevant_chunks query_embedding document_chunks top_k) none

/-- Concrete chunk with a one-component embedding, used as test input. -/
def cw1 : Chunk := ⟨"c1", "doc", ['t'], some [1], none⟩

/-- Concrete chunk whose embedding has the same direction as `cw1`. -/
def cw2 : Chunk := ⟨"c2", "doc", ['u'], some [2], none⟩

/-- Concrete chunk with a present-but-empty embedding list. -/
def cwE : Chunk := ⟨"ce", "doc", ['v'], some [], none⟩

/-- An embedding provider that raises a transport error (no stage tag:
a provider knows nothing of the pipeline's stages). -/
def embedFail : Embedder := fun _ => Except.error ⟨"transport error", none⟩

/-- A generation provider that always answers `"x"`. -/
def genOK : GenProvider := fun _ => Except.ok ['x']

theorem sliceIdx_natCast (n a : Nat) : sliceIdx n (a : Int) = min a n := by
  simp [sliceIdx, Int.toNat_natCast]

/-- For natural-number bounds, the Python slice `l[a:b]` is
`(l.drop a).take (b - a)`. -/
theorem pySlice_natCast (l : List α) (a b : Nat) :
    pySlice l (a : Int) (b : Int) = (l.drop a).take (b - a) := by
  unfold pySlice
  rw [sliceIdx_natCast, sliceIdx_natCast]
  rw [List.take_drop]
  rcases le_or_lt l.length a with ha | ha
  · have e1 : (l.take (min b l.length)).drop (min a l.length) = [] := by
      rw [List.drop_eq_nil_iff]
      simp [List.length_take]
      omega
    have e2 : (l.take (a + (b - a))).drop a = [] := by
      rw [List.drop_eq_nil_iff]
      simp [List.length_take]
      omega
    rw [e1, e2]
  · rw [min_eq_left ha.le]
    rcases le_or_lt a b with hab | hab
    · have h1 : a + (b - a) = b := by omega
      rw [h1]
      rcases le_or_lt b l.length with hb | hb
      · rw [min_eq_left hb]
      · rw [min_eq_right hb.le, List.take_length, List.take_of_length_le hb.le]
    · have h1 : a + (b - a) = a := by omega
      rw [h1]
      have e1 : (l.take (min b l.length)).drop a = [] := by
        rw [List.drop_eq_nil_iff]
        simp [List.length_take]
        omega
      have e2 : (l.take a).drop a = [] := by
        rw [List.drop_eq_nil_iff]
        simp [List.length_take]
      rw [e1, e2]

/-- Once `start` has reached the end of the text, the loop exits at
once with any remaining fuel. -/
theorem chunkLoop_done (text : List Char) (cs ov : Int) (fuel : Nat) (start : Int)
    (h : (text.length : Int) ≤ start) :
    chunkLoop text cs ov fuel start = some [] := by
  cases fuel with
  | zero =>
      unfold chunkLoop
      rw [if_neg (not_lt.mpr h)]
  | succ fuel =>
      unfold chunkLoop
      rw [if_neg (not_lt.mpr h)]

theorem strideStarts_zero (s : Nat) : strideStarts 0 s = [] := by
  unfold strideStarts
  rcases Nat.eq_zero_or_pos s with hs | hs
  · subst hs
    rfl
  · rw [Nat.div_eq_of_lt (by omega)]
    rfl

theorem numWindows_succ (s m : Nat) (hs : 0 < s) (hm : 0 < m) :
    (m + s - 1) / s = 1 + (m - s + s - 1) / s := by
  rcases le_or_lt m s with h | h
  · have h1 : m + s - 1 = (m - 1) + s := by omega
    have h2 : m - s = 0 := by omega
    rw [h1, Nat.add_div_right _ hs, h2]
    have h3 : (m - 1) / s = 0 := Nat.div_eq_of_lt (by omega)
    have h4 : (0 + s - 1) / s = 0 := Nat.div_eq_of_lt (by omega)
    rw [h3, h4]
  · have h1 : m + s - 1 = (m - s + s - 1) + s := by omega
    rw [h1, Nat.add_div_right _ hs]
    omega

theorem lt_numWindows_iff {s : Nat} (hs : 0 < s) (k len : Nat) :
    k < (len + s - 1) / s ↔ k * s < len := by
  rw [Nat.lt_iff_add_one_le, Nat.le_div_iff_mul_le hs, Nat.add_mul, Nat.one_mul]
  omega

theorem strideStarts_of_pos (len s : Nat) (hs : 0 < s) (hlen : 0 < len) :
    strideStarts len s = 0 :: (strideStarts (len - s) s).map (fun x => x + s) := by
  unfold strideStarts
  rw [numWindows_succ s len hs hlen, Nat.add_comm 1 ((len - s + s - 1) / s),
    List.range_succ_eq_map]
  simp only [List.map_cons, Nat.zero_mul, List.map_map]
  congr 1
  apply List.map_congr_left
  intro a _
  simp only [Function.comp_apply]
  rw [Nat.succ_mul]

/-- With a valid parameter pair, fuel at least the remaining length is
enough, and the loop starting at `start` produces exactly the windows
at offsets `start, start + s, start + 2*s, ...`. -/
theorem chunkLoop_valid (text : List Char) (cs ov : Nat) (hcs : 0 < cs) (hov : ov < cs) :
    ∀ (fuel start : Nat), text.length - start ≤ fuel →
      chunkLoop text (cs : Int) (ov : Int) fuel (start : Int)
        = some ((strideStarts (text.length - start) (cs - ov)).map
            (fun off => (text.drop (start + off)).take cs)) := by
  intro fuel
  induction fuel with
  | zero =>
      intro start h
      have hge : text.length ≤ start := by omega
      have h0 : text.length - start = 0 := by omega
      rw [chunkLoop_done text _ _ 0 _ (by exact_mod_cast hge), h0, strideStarts_zero]
      rfl
  | succ fuel ih =>
      intro start h
      rcases lt_or_le start text.length with hlt | hge
      · have hcond : (start : Int) < (text.length : Int) := by exact_mod_cast hlt
        have hcast : (start : Int) + ((cs : Int) - (ov : Int))
            = ((start + (cs - ov) : Nat) : Int) := by omega
        unfold chunkLoop
        rw [if_pos hcond, hcast, ih (start + (cs - ov)) (by omega)]
        rw [Option.map_some']
        congr 1
        rw [strideStarts_of_pos (text.length - start) (cs - ov) (by omega) (by omega)]
        rw [List.map_cons, List.map_map]
        congr 1
        · have hhead : (start : Int) + (cs : Int) = ((start + cs : Nat) : Int) := by omega
          have e1 : start + cs - start = cs := by omega
          have e2 : start + 0 = start := by omega
          rw [hhead, pySlice_natCast, e1, e2]
        · have harg : text.length - start - (cs - ov)
              = text.length - (start + (cs - ov)) := by omega
          rw [harg]
          apply List.map_congr_left
          intro a _
          simp only [Function.comp_apply]
          have e : start + (cs - ov) + a = start + (a + (cs - ov)) := by omega
          rw [e]
      · have h0 : text.length - start = 0 := by omega
        rw [chunkLoop_done text _ _ _ _ (by exact_mod_cast hge), h0, strideStarts_zero]
        rfl

/-- For non-empty text and a valid parameter pair, `chunk_text`
terminates and is the window list at the stride offsets. -/
theorem chunk_text_valid_eq (text : List Char) (cs ov : Nat)
    (hcs : 0 < cs) (hov : ov < cs) (htext : text ≠ []) :
    chunk_text text (cs : Int) (ov : Int)
      = some ((strideStarts text.length (cs - ov)).map
          (fun st => (text.drop st).take cs)) := by
  unfold chunk_text
  rw [if_neg (by simp [List.isEmpty_iff, htext])]
  have h := chunkLoop_valid text cs ov hcs hov text.length 0 (by omega)
  simpa using h

/-- Claim C1 [code_bug]: `chunk_text` neither rejects nor clamps an
invalid `chunk_size`/`overlap` combination.  With `chunk_size = 1` and
`overlap = 1` on the one-character text `"a"`, the stride is `0`, so
`start` stays at `0 < 1` forever: the embedded loop exhausts every
iteration bound (`none` for all fuel), i.e. the call loops
indefinitely instead of terminating. -/
theorem chunk_text_diverges_on_overlap_eq_chunk_size :
    chunk_text ['a'] 1 1 = none ∧ ∀ fuel : Nat, chunkLoop ['a'] 1 1 fuel 0 = none := by
  have hloop : ∀ fuel : Nat, chunkLoop ['a'] 1 1 fuel 0 = none := by
    intro fuel
    induction fuel with
    | zero => rfl
    | succ fuel ih =>
        unfold chunkLoop
        rw [if_pos (by norm_num), show (0 : Int) + (1 - 1) = 0 by norm_num, ih]
        rfl
  constructor
  · unfold chunk_text
    rw [if_neg (by decide)]
    exact hloop _
  · exact hloop

theorem replicate_2500_ne_nil : List.replicate 2500 'a' ≠ [] := by
  rw [← List.length_pos, List.length_replicate]
  norm_num

/-- Claim C4 [confirmed]: for non-empty text, positive `chunk_size`
and `0 ≤ overlap < chunk_size`, the windows returned by `chunk_text`
are the slices at offsets `0, s, 2s, ...` with `s = chunk_size −
overlap`: consecutive window start offsets differ by exactly `s` and
every character position lies in some window.  Scenario A
(`chunk_size = 1000`, `overlap = 200`, text length 2500) gives windows
of lengths `[1000, 1000, 900, 100]` at offsets `[0, 800, 1600, 2400]`. -/
theorem chunk_text_coverage_stride (text : List Char) (cs ov : Nat)
    (hcs : 0 < cs) (hov : ov < cs) (htext : text ≠ []) :
    chunk_text text (cs : Int) (ov : Int)
      = some ((strideStarts text.length (cs - ov)).map
          (fun st => (text.drop st).take cs))
    ∧ (∀ i < text.length, ∃ st ∈ strideStarts text.length (cs - ov),
        st ≤ i ∧ i < st + cs)
    ∧ List.Chain' (fun a b => b = a + (cs - ov)) (strideStarts text.length (cs - ov))
    ∧ (chunk_text (List.replicate 2500 'a') 1000 200).map (fun ws => ws.map List.length)
        = some [1000, 1000, 900, 100]
    ∧ strideStarts 2500 800 = [0, 800, 1600, 2400] := by
  refine ⟨chunk_text_valid_eq text cs ov hcs hov htext, ?_, ?_, ?_, ?_⟩
  · intro i hi
    have hs : 0 < cs - ov := by omega
    refine ⟨i / (cs - ov) * (cs - ov), ?_, Nat.div_mul_le_self i (cs - ov), ?_⟩
    · unfold strideStarts
      refine List.mem_map.mpr ⟨i / (cs - ov), List.mem_range.mpr ?_, rfl⟩
      rw [lt_numWindows_iff hs]
      calc i / (cs - ov) * (cs - ov) ≤ i := Nat.div_mul_le_self i (cs - ov)
        _ < text.length := hi
    · have hdm : (cs - ov) * (i / (cs - ov)) + i % (cs - ov) = i :=
        Nat.div_add_mod i (cs - ov)
      have hmod : i % (cs - ov) < cs - ov := Nat.mod_lt i hs
      have hcomm : i / (cs - ov) * (cs - ov) = (cs - ov) * (i / (cs - ov)) :=
        Nat.mul_comm _ _
      omega
  · rw [List.chain'_iff_get]
    intro i h
    simp only [strideStarts, List.get_eq_getElem, List.getElem_map, List.getElem_range]
    rw [Nat.add_mul, Nat.one_mul]
  · have hc1 : ((1000 : Nat) : Int) = (1000 : Int) := by norm_cast
    have hc2 : ((200 : Nat) : Int) = (200 : Int) := by norm_cast
    have h := chunk_text_valid_eq (List.replicate 2500 'a') 1000 200
      (by norm_num) (by norm_num) replicate_2500_ne_nil
    rw [hc1, hc2] at h
    rw [h, Option.map_some']
    have hss : strideStarts (List.replicate 2500 'a').length (1000 - 200)
        = [0, 800, 1600, 2400] := by
      rw [List.length_replicate]
      decide
    rw [hss]
    simp only [List.map_cons, List.map_nil, List.length_take, List.length_drop,
      List.length_replicate, Option.some.injEq, List.cons.injEq]
    norm_num
  · decide

/-- Witness for C4: the hypotheses hold at Scenario A's input, and the
theorem applied there yields its lengths `[1000, 1000, 900, 100]`. -/
theorem chunk_text_coverage_stride_witness :
    (0 < 1000 ∧ 200 < 1000 ∧ List.replicate 2500 'a' ≠ []) ∧
      (chunk_text (List.replicate 2500 'a') 1000 200).map (fun ws => ws.map List.length)
        = some [1000, 1000, 900, 100] :=
  ⟨⟨by norm_num, by norm_num, replicate_2500_ne_nil⟩,
    (chunk_text_coverage_stride (List.replicate 2500 'a') 1000 200
      (by norm_num) (by norm_num) replicate_2500_ne_nil).2.2.2.1⟩

/-- The scoring loop keeps exactly the truthy-embedding chunks, pairing
each with its similarity. -/
theorem scoredOf_eq (q : List ℝ) (chunks : List Chunk) :
    scoredOf q chunks
      = (chunks.filter (fun c => pyTruthyEmbedding c.embedding)).map
          (fun c => (cosine_similarity q (c.embedding.getD []), c)) := by
  unfold scoredOf
  induction chunks with
  | nil => rfl
  | cons c cs ih =>
      rw [List.filterMap_cons, List.filter_cons]
      cases hemb : c.embedding with
      | none =>
          simp only [pyTruthyEmbedding] at ih ⊢
          simp at ih ⊢
          exact ih
      | some e =>
          cases he : e.isEmpty with
          | true =>
              simp only [pyTruthyEmbedding] at ih ⊢
              simp [he] at ih ⊢
              exact ih
          | false =>
              simp only [pyTruthyEmbedding] at ih ⊢
              simp [he, hemb] at ih ⊢
              exact ih

theorem length_scoredOf (q : List ℝ) (chunks : List Chunk) :
    (scoredOf q chunks).length
      = (chunks.filter (fun c => pyTruthyEmbedding c.embedding)).length := by
  rw [scoredOf_eq, List.length_map]

theorem mem_scoredOf {q : List ℝ} {chunks : List Chunk} {p : ℝ × Chunk}
    (hp : p ∈ scoredOf q chunks) :
    p.1 = cosine_similarity q (p.2.embedding.getD [])
      ∧ pyTruthyEmbedding p.2.embedding = true ∧ p.2 ∈ chunks := by
  rw [scoredOf_eq] at hp
  rcases List.mem_map.mp hp with ⟨c, hc, rfl⟩
  exact ⟨rfl, (List.mem_filter.mp hc).2, (List.mem_filter.mp hc).1⟩

theorem sortKeyDesc_trans :
    ∀ (a b c : ℝ × Chunk), sortKeyDesc a b → sortKeyDesc b c → sortKeyDesc a c := by
  intro a b c hab hbc
  simp only [sortKeyDesc, decide_eq_true_eq] at hab hbc ⊢
  exact le_trans hbc hab

theorem sortKeyDesc_total : ∀ (a b : ℝ × Chunk), sortKeyDesc a b || sortKeyDesc b a := by
  intro a b
  simp only [sortKeyDesc, Bool.or_eq_true, decide_eq_true_eq]
  exact le_total b.1 a.1

theorem pyTake_sublist (k : Int) (l : List α) : (pyTake k l).Sublist l := by
  unfold pyTake
  rcases le_or_lt 0 k with h | h
  · rw [if_pos h]
    exact List.take_sublist _ _
  · rw [if_neg (not_le.mpr h)]
    exact List.take_sublist _ _

/-- Every chunk the retriever returns is one of the caller's chunk
values, and it has a truthy embedding. -/
theorem mem_retrieve {q : List ℝ} {chunks : List Chunk} {k : Int} {c : Chunk}
    (hc : c ∈ retrieve_relevant_chunks q chunks k) :
    c ∈ chunks ∧ pyTruthyEmbedding c.embedding = true := by
  unfold retrieve_relevant_chunks at hc
  rcases List.mem_map.mp hc with ⟨p, hp, rfl⟩
  have hpS := (pyTake_sublist _ _).subset hp
  have h := mem_scoredOf (List.mem_mergeSort.mp hpS)
  exact ⟨h.2.2, h.2.1⟩

/-- Claim C3 [confirmed]: for non-negative `top_k`,
`retrieve_relevant_chunks` returns exactly
`min top_k (number of scorable candidates)` chunks — a chunk is
scorable when its `embedding` is truthy (present and non-empty), the
only notion of "has an embedding" the code tests — ordered
non-increasing in cosine similarity to the query, every returned chunk
taken from the candidate list, with no error or padding when `top_k`
exceeds the number of scorable candidates. -/
theorem retrieve_relevant_chunks_count_order (q : List ℝ) (chunks : List Chunk)
    (k : Int) (hk : 0 ≤ k) :
    (retrieve_relevant_chunks q chunks k).length
        = min k.toNat (chunks.filter (fun c => pyTruthyEmbedding c.embedding)).length
    ∧ ((retrieve_relevant_chunks q chunks k).map
        (fun c => cosine_similarity q (c.embedding.getD []))).Pairwise (fun a b => b ≤ a)
    ∧ ∀ c ∈ retrieve_relevant_chunks q chunks k,
        c ∈ chunks ∧ pyTruthyEmbedding c.embedding = true := by
  have hpy : pyTake k ((scoredOf q chunks).mergeSort sortKeyDesc)
      = ((scoredOf q chunks).mergeSort sortKeyDesc).take k.toNat := by
    unfold pyTake
    rw [if_pos hk]
  refine ⟨?_, ?_, fun c hc => mem_retrieve hc⟩
  · unfold retrieve_relevant_chunks
    rw [hpy, List.length_map, List.length_take, List.length_mergeSort, length_scoredOf]
  · have hsorted : ((scoredOf q chunks).mergeSort sortKeyDesc).Pairwise
        (fun a b => b.1 ≤ a.1) := by
      have h := List.sorted_mergeSort sortKeyDesc_trans sortKeyDesc_total (scoredOf q chunks)
      exact h.imp (fun hab => by simpa [sortKeyDesc, decide_eq_true_eq] using hab)
    have hkey : ∀ p ∈ (scoredOf q chunks).mergeSort sortKeyDesc,
        p.1 = cosine_similarity q (p.2.embedding.getD []) := by
      intro p hp
      exact (mem_scoredOf (List.mem_mergeSort.mp hp)).1
    unfold retrieve_relevant_chunks
    rw [hpy, List.map_map, List.pairwise_map]
    have htake : (((scoredOf q chunks).mergeSort sortKeyDesc).take k.toNat).Pairwise
        (fun a b : ℝ × Chunk => b.1 ≤ a.1) :=
      List.Pairwise.sublist (List.take_sublist _ _) hsorted
    refine List.Pairwise.imp_of_mem ?_ htake
    intro a b ha hb hab
    have ha' := hkey a ((List.take_sublist _ _).subset ha)
    have hb' := hkey b ((List.take_sublist _ _).subset hb)
    simpa [Function.comp, ← ha', ← hb'] using hab

/-- Witness for C3: one scorable chunk, `top_k = 5`. -/
theorem retrieve_relevant_chunks_count_order_witness :
    (0 : Int) ≤ 5 ∧
      ((retrieve_relevant_chunks [1] [cw1] 5).length
          = min (5 : Int).toNat
              (List.filter (fun c => pyTruthyEmbedding c.embedding) [cw1]).length
        ∧ ((retrieve_relevant_chunks [1] [cw1] 5).map
            (fun c => cosine_similarity [1] (c.embedding.getD []))).Pairwise
              (fun a b => b ≤ a)
        ∧ ∀ c ∈ retrieve_relevant_chunks [1] [cw1] 5,
            c ∈ [cw1] ∧ pyTruthyEmbedding c.embedding = true) :=
  ⟨by norm_num, retrieve_relevant_chunks_count_order [1] [cw1] 5 (by norm_num)⟩

/-- An in-order pair of scorable candidates survives into the scored
list, as the corresponding similarity/chunk pairs. -/
theorem pair_sublist_scoredOf (q : List ℝ) {chunks : List Chunk} {c1 c2 : Chunk}
    (h : [c1, c2].Sublist chunks)
    (t1 : pyTruthyEmbedding c1.embedding = true)
    (t2 : pyTruthyEmbedding c2.embedding = true) :
    ([(cosine_similarity q (c1.embedding.getD []), c1),
      (cosine_similarity q (c2.embedding.getD []), c2)]).Sublist (scoredOf q chunks) := by
  rw [scoredOf_eq]
  have hsub := List.Sublist.filter (fun c => pyTruthyEmbedding c.embedding) h
  have hf : List.filter (fun c => pyTruthyEmbedding c.embedding) [c1, c2] = [c1, c2] := by
    simp [List.filter_cons, t1, t2]
  rw [hf] at hsub
  simpa using hsub.map (fun c => (cosine_similarity q (c.embedding.getD []), c))

/-- Claim C5 [confirmed]: the sort is stable.  Two scorable candidates
with equal cosine similarity keep their input order in the fully
retrieved list (here with `top_k` = the candidate count, so that
nothing is truncated), and for any non-negative `top_k` the result is
exactly the prefix of that fully retrieved list, so truncation never
reorders ties either. -/
theorem retrieve_relevant_chunks_stable_ties (q : List ℝ) (chunks : List Chunk)
    (c1 c2 : Chunk) (hsub : [c1, c2].Sublist chunks)
    (t1 : pyTruthyEmbedding c1.embedding = true)
    (t2 : pyTruthyEmbedding c2.embedding = true)
    (hsim : cosine_similarity q (c1.embedding.getD [])
        = cosine_similarity q (c2.embedding.getD [])) :
    ([c1, c2]).Sublist (retrieve_relevant_chunks q chunks (chunks.length : Int))
    ∧ ∀ k : Int, 0 ≤ k →
        retrieve_relevant_chunks q chunks k
          = (retrieve_relevant_chunks q chunks (chunks.length : Int)).take k.toNat := by
  have hfull : pyTake (chunks.length : Int) ((scoredOf q chunks).mergeSort sortKeyDesc)
      = (scoredOf q chunks).mergeSort sortKeyDesc := by
    unfold pyTake
    rw [if_pos (Int.natCast_nonneg _)]
    apply List.take_of_length_le
    rw [List.length_mergeSort, length_scoredOf]
    have h1 : (chunks.length : Int).toNat = chunks.length := by omega
    rw [h1]
    exact List.length_filter_le _ _
  constructor
  · have hpair := pair_sublist_scoredOf q hsub t1 t2
    have hle : sortKeyDesc (cosine_similarity q (c1.embedding.getD []), c1)
        (cosine_similarity q (c2.embedding.getD []), c2) = true := by
      simp [sortKeyDesc, hsim]
    have hmerge := List.pair_sublist_mergeSort sortKeyDesc_trans sortKeyDesc_total hle hpair
    unfold retrieve_relevant_chunks
    rw [hfull]
    simpa using hmerge.map (fun p : ℝ × Chunk => p.2)
  · intro k hk
    unfold retrieve_relevant_chunks
    rw [hfull]
    unfold pyTake
    rw [if_pos hk, List.map_take]

/-- Claim C8 [confirmed]: the chunk pool is read-only.  In this pure
embedding of the source — which contains no assignment to any chunk
attribute — the claim is rendered observationally: every chunk value
the retriever returns is one of the caller's original chunk values
(all five fields identical), and the synthesizer's output refers to the
chunks only through the per-chunk field reads of `mkSource`. -/
theorem chunk_pool_read_only :
    (∀ (q : List ℝ) (chunks : List Chunk) (k : Int) (c : Chunk),
        c ∈ retrieve_relevant_chunks q chunks k → c ∈ chunks)
    ∧ ∀ (gen : GenProvider) (question : List Char) (chunks : List Chunk)
        (sp : Option (List Char)) (r : RAGResponse),
        generate_answer gen question chunks sp = .ok r →
        r.sources = chunks.map mkSource := by
  constructor
  · intro q chunks k c hc
    exact (mem_retrieve hc).1
  · intro gen question chunks sp r hr
    unfold generate_answer at hr
    cases hgen : gen (buildMessages question chunks sp) with
    | ok ans =>
        rw [hgen] at hr
        simp only at hr
        injection hr with h
        rw [← h]
    | error e =>
        rw [hgen] at hr
        simp at hr

/-- Claim C9 [confirmed]: a chunk whose embedding is present but empty
is treated exactly like a chunk with no embedding — both are dropped by
the truthiness test before scoring, leaving the retrieval result
unchanged, and such a chunk never appears in any retrieval result. -/
theorem empty_embedding_excluded (q : List ℝ) (pre post : List Chunk) (k : Int)
    (c : Chunk) (hc : c.embedding = some []) :
    retrieve_relevant_chunks q (pre ++ c :: post) k
        = retrieve_relevant_chunks q (pre ++ post) k
    ∧ (∀ c' : Chunk, c'.embedding = none →
        retrieve_relevant_chunks q (pre ++ c' :: post) k
          = retrieve_relevant_chunks q (pre ++ post) k)
    ∧ ∀ chunks : List Chunk, c ∉ retrieve_relevant_chunks q chunks k := by
  have hskip : ∀ (d : Chunk), pyTruthyEmbedding d.embedding = false →
      scoredOf q (pre ++ d :: post) = scoredOf q (pre ++ post) := by
    intro d hd
    rw [scoredOf_eq, scoredOf_eq]
    congr 1
    rw [List.filter_append, List.filter_append, List.filter_cons, hd]
    simp
  refine ⟨?_, ?_, ?_⟩
  · unfold retrieve_relevant_chunks
    rw [hskip c (by rw [hc]; rfl)]
  · intro c' hc'
    unfold retrieve_relevant_chunks
    rw [hskip c' (by rw [hc']; rfl)]
  · intro chunks hmem
    have h := (mem_retrieve hmem).2
    rw [hc] at h
    simp [pyTruthyEmbedding] at h

/-- Witness for C9: retrieving over the single present-but-empty
embedding chunk `cwE` equals retrieving over no chunks at all. -/
theorem empty_embedding_excluded_witness :
    cwE.embedding = some [] ∧
      (retrieve_relevant_chunks [1] ([] ++ cwE :: []) 3
          = retrieve_relevant_chunks [1] ([] ++ []) 3
        ∧ ∀ chunks : List Chunk, cwE ∉ retrieve_relevant_chunks [1] chunks 3) :=
  ⟨rfl, (empty_embedding_excluded [1] [] [] 3 cwE rfl).1,
    (empty_embedding_excluded [1] [] [] 3 cwE rfl).2.2⟩

theorem sumSquares_nonneg (v : List ℝ) : 0 ≤ sumSquares v := by
  unfold sumSquares
  apply List.sum_nonneg
  intro x hx
  rcases List.mem_map.mp hx with ⟨a, _, rfl⟩
  exact mul_self_nonneg a

theorem sumSquares_pos (v : List ℝ) (hv : ∃ x ∈ v, x ≠ 0) : 0 < sumSquares v := by
  rcases hv with ⟨x, hx, hx0⟩
  have h1 : x * x ≤ sumSquares v := by
    unfold sumSquares
    apply List.single_le_sum
    · intro y hy
      rcases List.mem_map.mp hy with ⟨a, _, rfl⟩
      exact mul_self_nonneg a
    · exact List.mem_map.mpr ⟨x, hx, rfl⟩
  have h2 : 0 < x * x := mul_self_pos.mpr hx0
  linarith

theorem magnitude_pos (v : List ℝ) (hv : ∃ x ∈ v, x ≠ 0) : 0 < magnitude v :=
  Real.sqrt_pos.mpr (sumSquares_pos v hv)

theorem dot_self_eq_sumSquares (v : List ℝ) : dot_product v v = sumSquares v := by
  unfold dot_product sumSquares
  congr 1
  induction v with
  | nil => rfl
  | cons a l ih => simp [ih]

theorem magnitude_single (a : ℝ) (ha : 0 ≤ a) : magnitude [a] = a := by
  unfold magnitude sumSquares
  simp [Real.sqrt_mul_self ha]

theorem dot_single (a b : ℝ) : dot_product [a] [b] = a * b := by
  simp [dot_product]

/-- Any two positive one-component vectors have similarity exactly 1. -/
theorem cosine_single (a b : ℝ) (ha : 0 < a) (hb : 0 < b) :
    cosine_similarity [a] [b] = 1 := by
  unfold cosine_similarity
  rw [magnitude_single a ha.le, magnitude_single b hb.le]
  rw [if_neg (by push_neg; exact ⟨ha.ne', hb.ne'⟩), dot_single,
    div_self (mul_pos ha hb).ne']

/-- Witness for C5: `cw1` and `cw2` point in the same direction, so
they tie at similarity 1, and the retrieval keeps them in input
order. -/
theorem retrieve_relevant_chunks_stable_ties_witness :
    (([cw1, cw2]).Sublist [cw1, cw2]
      ∧ pyTruthyEmbedding cw1.embedding = true
      ∧ pyTruthyEmbedding cw2.embedding = true
      ∧ cosine_similarity [1] (cw1.embedding.getD [])
          = cosine_similarity [1] (cw2.embedding.getD []))
    ∧ ([cw1, cw2]).Sublist
        (retrieve_relevant_chunks [1] [cw1, cw2]
          (([cw1, cw2] : List Chunk).length : Int)) := by
  have hsim : cosine_similarity [1] (cw1.embedding.getD [])
      = cosine_similarity [1] (cw2.embedding.getD []) := by
    show cosine_similarity [1] [1] = cosine_similarity [1] [2]
    rw [cosine_single 1 1 one_pos one_pos, cosine_single 1 2 one_pos two_pos]
  exact ⟨⟨List.Sublist.refl _, rfl, rfl, hsim⟩,
    (retrieve_relevant_chunks_stable_ties [1] [cw1, cw2] cw1 cw2
      (List.Sublist.refl _) rfl rfl hsim).1⟩

/-- Witness for C8: the retriever returns `cw1` itself, and a
successful synthesis over `[cw1]` reports exactly the `mkSource`
projection. -/
theorem chunk_pool_read_only_witness :
    cw1 ∈ ([cw1] : List Chunk)
    ∧ (RAGResponse.mk ['o', 'k'] ([cw1].map mkSource)
        (min 1 (((['o', 'k'] : List Char).length : ℝ) / 500))).sources
        = [cw1].map mkSource := by
  have hret : retrieve_relevant_chunks [1] [cw1] 5 = [cw1] := by
    unfold retrieve_relevant_chunks
    have hs : scoredOf [1] [cw1] = [(cosine_similarity [1] [1], cw1)] := rfl
    rw [hs, List.mergeSort_singleton]
    rfl
  refine ⟨chunk_pool_read_only.1 [1] [cw1] 5 cw1 ?_,
    chunk_pool_read_only.2 (fun _ => Except.ok ['o', 'k']) ['q'] [cw1] none
      (RAGResponse.mk ['o', 'k'] ([cw1].map mkSource)
        (min 1 (((['o', 'k'] : List Char).length : ℝ) / 500))) rfl⟩
  rw [hret]
  exact List.mem_singleton.mpr rfl

/-- Claim C6 [confirmed] (real-number idealization of the float
arithmetic): any vector with a nonzero component has similarity
exactly 1 with itself, and similarity with any zero-magnitude vector
(in particular the zero vector) is 0 by the guard, not an error. -/
theorem cosine_similarity_self_and_zero (v z : List ℝ)
    (hv : ∃ x ∈ v, x ≠ 0) (hz : magnitude z = 0) :
    cosine_similarity v v = 1 ∧ cosine_similarity v z = 0 := by
  have hm : 0 < magnitude v := magnitude_pos v hv
  constructor
  · unfold cosine_similarity
    rw [if_neg (by push_neg; exact ⟨hm.ne', hm.ne'⟩), dot_self_eq_sumSquares]
    unfold magnitude
    rw [Real.mul_self_sqrt (sumSquares_nonneg v)]
    exact div_self (sumSquares_pos v hv).ne'
  · unfold cosine_similarity
    rw [if_pos (Or.inr hz)]

/-- Witness for C6: `v = [3, 4]`, `z = [0, 0]`. -/
theorem cosine_similarity_self_and_zero_witness :
    ((∃ x ∈ ([3, 4] : List ℝ), x ≠ 0) ∧ magnitude [0, 0] = 0) ∧
      cosine_similarity [3, 4] [3, 4] = 1 ∧ cosine_similarity [3, 4] [0, 0] = 0 := by
  have hv : ∃ x ∈ ([3, 4] : List ℝ), x ≠ 0 := ⟨3, by simp, by norm_num⟩
  have hz : magnitude [(0 : ℝ), 0] = 0 := by
    unfold magnitude sumSquares
    have h : ((([0, 0] : List ℝ)).map (fun a => a * a)).sum = 0 := by simp
    rw [h, Real.sqrt_zero]
  exact ⟨⟨hv, hz⟩, cosine_similarity_self_and_zero [3, 4] [0, 0] hv hz⟩

theorem zip_take_min (v1 v2 : List ℝ) :
    v1.zip v2 = (v1.take (min v1.length v2.length)).zip
      (v2.take (min v1.length v2.length)) := by
  induction v1 generalizing v2 with
  | nil => simp
  | cons a l ih =>
      cases v2 with
      | nil => simp
      | cons b m =>
          simp only [List.length_cons, Nat.succ_min_succ, List.take_succ_cons,
            List.zip_cons_cons]
          rw [← ih m]

/-- Claim C10 [confirmed]: `cosine_similarity` is total on vectors of
different lengths: the dot product ranges over only the common prefix
(`zip` stops at the shorter vector) while each magnitude is computed
over that vector's full length; e.g. for `[3, 4]` against `[1]` the
result is `3 / 5` with no error. -/
theorem cosine_similarity_total_common_prefix :
    (∀ v1 v2 : List ℝ,
        cosine_similarity v1 v2
          = if magnitude v1 = 0 ∨ magnitude v2 = 0 then 0
            else dot_product (v1.take (min v1.length v2.length))
                (v2.take (min v1.length v2.length))
                / (magnitude v1 * magnitude v2))
    ∧ cosine_similarity [3, 4] [1] = 3 / 5 := by
  have hdot : ∀ v1 v2 : List ℝ,
      dot_product (v1.take (min v1.length v2.length))
          (v2.take (min v1.length v2.length)) = dot_product v1 v2 := by
    intro v1 v2
    unfold dot_product
    rw [← zip_take_min]
  constructor
  · intro v1 v2
    rw [hdot]
    rfl
  · have hm1 : magnitude [(3 : ℝ), 4] = 5 := by
      unfold magnitude sumSquares
      have h : ((([3, 4] : List ℝ)).map (fun a => a * a)).sum = 25 := by norm_num
      rw [h, show (25 : ℝ) = 5 * 5 by norm_num,
        Real.sqrt_mul_self (by norm_num : (0 : ℝ) ≤ 5)]
    have hm2 : magnitude [(1 : ℝ)] = 1 := by
      unfold magnitude sumSquares
      have h : ((([1] : List ℝ)).map (fun a => a * a)).sum = 1 := by norm_num
      rw [h, Real.sqrt_one]
    unfold cosine_similarity
    rw [hm1, hm2, if_neg (by norm_num)]
    have hd : dot_product [(3 : ℝ), 4] [1] = 3 := by
      unfold dot_product
      simp
    rw [hd]
    norm_num

/-- Claim C2 counterexample: with an embedding provider raising
`"transport error"` (untagged, as providers raise it), the error
propagating out of `process_query` is exactly the untagged original —
its `stage` field is still `none`, not `some EMBED_QUERY`: the code
re-raises exceptions unchanged and never attaches a stage tag. -/
theorem process_query_error_not_stage_tagged :
    process_query embedFail genOK ['q'] [] 5
        = Except.error ⟨"transport error", none⟩
    ∧ (⟨"transport error", none⟩ : ProviderError)
        ≠ ⟨"transport error", some Stage.EMBED_QUERY⟩ := by
  constructor
  · rfl
  · decide

/-- Claim C2 [corrected]: fail-fast propagation holds, without stage
tagging.  If the embedding call raises, `process_query` returns that
very error for every generation provider, chunk pool and `top_k` — so
no partial result is produced and neither retrieval nor synthesis can
influence the outcome — and a generation-provider error likewise
propagates out of `generate_answer` unchanged. -/
theorem process_query_fail_fast
    (embedder : Embedder) (gen : GenProvider) (question : List Char)
    (e : ProviderError) (he : embedder question = Except.error e) :
    (∀ (gen' : GenProvider) (chunks : List Chunk) (k : Int),
        process_query embedder gen' question chunks k = Except.error e)
    ∧ ∀ (ctx : List Chunk) (sp : Option (List Char)) (e' : ProviderError),
        gen (buildMessages question ctx sp) = Except.error e' →
        generate_answer gen question ctx sp = Except.error e' := by
  constructor
  · intro gen' chunks k
    unfold process_query generate_embedding
    rw [he]
  · intro ctx sp e' hg
    unfold generate_answer
    rw [hg]

/-- Witness for C2's amended claim, at the failing provider
`embedFail`. -/
theorem process_query_fail_fast_witness :
    embedFail ['q'] = Except.error ⟨"transport error", none⟩
    ∧ process_query embedFail genOK ['q'] [cw1] 3
        = Except.error ⟨"transport error", none⟩ :=
  ⟨rfl, (process_query_fail_fast embedFail genOK ['q']
    ⟨"transport error", none⟩ rfl).1 genOK [cw1] 3⟩

/-- Claim C7 [confirmed]: `generate_answer` reports one source entry
per context chunk, in order, via `mkSource`; the `text_preview` of an
entry is the first 200 characters of the chunk text with `"..."`
appended exactly when the text is longer than 200 characters (the
chunk text itself is untouched); and with an empty `context_chunks`
list the provider request is still issued — the result is exactly the
provider's response on the messages with an empty context block — and
the sources list is `[]`. -/
theorem generate_answer_sources_preview :
    (∀ (gen : GenProvider) (question : List Char) (chunks : List Chunk)
        (sp : Option (List Char)) (r : RAGResponse),
        generate_answer gen question chunks sp = Except.ok r →
        r.sources = chunks.map mkSource)
    ∧ (∀ c : Chunk, (mkSource c).text_preview
        = if 200 < c.text.length then c.text.take 200 ++ "...".toList else c.text)
    ∧ (∀ (question : List Char) (sp : Option (List Char)),
        buildMessages question [] sp
          = [⟨"system", resolve_system_prompt sp⟩,
             ⟨"user", "Context:\n".toList ++ "\n\nQuestion: ".toList ++ question⟩])
    ∧ ∀ (gen : GenProvider) (question : List Char) (sp : Option (List Char)),
        generate_answer gen question [] sp
          = (gen (buildMessages question [] sp)).map
              (fun ans => ⟨ans, [], min 1 ((ans.length : ℝ) / 500)⟩) := by
  refine ⟨?_, fun c => rfl, ?_, ?_⟩
  · intro gen question chunks sp r hr
    unfold generate_answer at hr
    cases hgen : gen (buildMessages question chunks sp) with
    | ok ans =>
        rw [hgen] at hr
        simp only at hr
        injection hr with h
        rw [← h]
    | error e =>
        rw [hgen] at hr
        simp at hr
  · intro question sp
    unfold buildMessages buildContext
    simp [List.intercalate]
  · intro gen question sp
    cases hgen : gen (buildMessages question [] sp) with
    | ok ans => simp [generate_answer, hgen, Except.map]
    | error e => simp [generate_answer, hgen, Except.map]

/-- Witness for C7: a successful synthesis over `[cw1]` reports
`mkSource cw1`. -/
theorem generate_answer_sources_preview_witness :
    generate_answer genOK ['q'] [cw1] none
        = Except.ok ⟨['x'], [cw1].map mkSource,
            min 1 (((['x'] : List Char).length : ℝ) / 500)⟩
    ∧ (RAGResponse.mk ['x'] ([cw1].map mkSource)
        (min 1 (((['x'] : List Char).length : ℝ) / 500))).sources
        = [cw1].map mkSource :=
  ⟨rfl, generate_answer_sources_preview.1 genOK ['q'] [cw1] none
    (RAGResponse.mk ['x'] ([cw1].map mkSource)
      (min 1 (((['x'] : List Char).length : ℝ) / 500))) rfl⟩

end RAGService
